import Mathlib

/-!
Verification development for the monk-api-fuse adaptation layer.

The Go sources are shallowly embedded: Go strings and byte slices are
modelled as `List Char` (byte-for-byte for the ASCII data handled here),
machine integers as `Nat`/`Int` with explicit wrap where a Go conversion
wraps, the mutable metadata map as a function `GoStr → Option CacheEntry`,
and each FUSE callback as a pure state transformer that also reports how
many remote API calls it issued.  A Go run-time panic is modelled as an
explicit `.error`/`.crash` outcome.
-/

/-- Go strings and byte slices, modelled as lists of characters. -/
abbrev GoStr := List Char

/-- Embeds a Lean string literal as a `GoStr`. -/
def gs (s : String) : GoStr := s.data

/-- POSIX errno Errno.EPERM (operation not permitted). -/
def Errno.EPERM : Nat := 1

/-- POSIX errno Errno.ENOENT (no such file or directory). -/
def Errno.ENOENT : Nat := 2

/-- POSIX errno Errno.EIO (generic I/O error). -/
def Errno.EIO : Nat := 5

/-- POSIX errno Errno.EACCES (permission denied). -/
def Errno.EACCES : Nat := 13

/-- POSIX errno Errno.EEXIST (file exists). -/
def Errno.EEXIST : Nat := 17

/-- POSIX errno Errno.EISDIR (is a directory). -/
def Errno.EISDIR : Nat := 21

/-- POSIX errno Errno.EINVAL (invalid argument). -/
def Errno.EINVAL : Nat := 22

/-- Mode bit for directories (`syscall.S_IFDIR`). -/
def S_IFDIR : Nat := 0o040000

/-- Mode bit for regular files (`syscall.S_IFREG`). -/
def S_IFREG : Nat := 0o100000

/-- An error produced by the monkapi client (monkapi package): either a
structured `*APIError` carrying the remote HTTP status and application
error code, or a transport-level failure carrying no status code. -/
inductive GoError where
  | api (statusCode : Nat) (errorCode : GoStr) (message : GoStr)
  | transport (message : GoStr)
deriving DecidableEq

/-- Embeds `monkapi.IsNotFound`: true exactly for an `*APIError` with
status code 404. -/
def IsNotFound : GoError → Bool
  | .api 404 _ _ => true
  | _ => false

/-- Embeds `HTTPErrorToErrno` from `pkg/monkfs/errors.go`.  A `none`
argument is Go's `nil` error; a non-`*APIError` error is the transport
case, which the Go type switch sends to `Errno.EIO`. -/
def HTTPErrorToErrno : Option GoError → Nat
  | none => 0
  | some (.transport _) => Errno.EIO
  | some (.api status code _) =>
    if status = 401 then Errno.EACCES
    else if status = 403 then Errno.EPERM
    else if status = 404 then Errno.ENOENT
    else if status = 400 then
      (if code = gs "INVALID_PATH" then Errno.EINVAL
       else if code = gs "NOT_A_FILE" then Errno.EISDIR
       else if code = gs "WILDCARDS_NOT_ALLOWED" then Errno.EINVAL
       else Errno.EINVAL)
    else if status = 409 then Errno.EEXIST
    else Errno.EIO

/-- Embeds `monkapi.FileMetadata` (sizes are Go `int64`, timestamps are
RFC3339 strings). -/
structure FileMetadata where
  size : Int
  modifiedTime : GoStr
  createdTime : GoStr
  accessTime : GoStr
  type : GoStr
  permissions : GoStr
deriving DecidableEq

/-- Embeds `monkapi.StatResponse`. -/
structure StatResponse where
  success : Bool
  fileMetadata : FileMetadata
  type : GoStr
deriving DecidableEq

/-- The FUSE attribute fields this layer fills (`fuse.Attr`): size,
three timestamps and the mode word, all Go `uint64`/`uint32`. -/
structure Attr where
  size : Nat
  mtime : Nat
  ctime : Nat
  atime : Nat
  mode : Nat
deriving DecidableEq

/-- True when the character is an ASCII digit. -/
def isDigitCh (c : Char) : Bool := 48 ≤ c.toNat && c.toNat ≤ 57

/-- Numeric value of an ASCII digit. -/
def dval (c : Char) : Nat := c.toNat - 48

/-- Gregorian leap-year rule, as in Go `time.isLeap`. -/
def isLeap (y : Nat) : Bool := (y % 4 = 0 && y % 100 != 0) || y % 400 = 0

/-- Number of days in a month, as in Go `time.daysIn`. -/
def daysIn (month year : Nat) : Nat :=
  if month = 2 then (if isLeap year then 29 else 28)
  else if month ∈ [4, 6, 9, 11] then 30
  else 31

/-- The components of a parsed RFC3339 timestamp; `offset` is the zone
offset in seconds east of UTC. -/
structure RFCTime where
  year : Nat
  month : Nat
  day : Nat
  hour : Nat
  minute : Nat
  second : Nat
  offset : Int
deriving DecidableEq

/-- Go `getnum` with `fixed=true` (zero-padded layout field): exactly
two decimal digits. -/
def getnum2 (s : List Char) : Option (Nat × List Char) :=
  match s with
  | c1 :: c2 :: rest =>
    if isDigitCh c1 && isDigitCh c2 then some (dval c1 * 10 + dval c2, rest) else none
  | _ => none

/-- Go `getnum` with `fixed=false` (the RFC3339 layout's hour field
`15` is the one non-zero-padded number, Go issue 54580): two decimal
digits when the second character is a digit, otherwise one. -/
def getnum1or2 (s : List Char) : Option (Nat × List Char) :=
  match s with
  | c1 :: c2 :: rest =>
    if isDigitCh c1 then
      if isDigitCh c2 then some (dval c1 * 10 + dval c2, rest)
      else some (dval c1, c2 :: rest)
    else none
  | [c1] => if isDigitCh c1 then some (dval c1, []) else none
  | [] => none

/-- Models the fractional-second consumption of Go `time.Parse`: a
period — or, in the generic layout parser shared by the fallback, a
comma — followed by at least one digit is consumed (the digits never
affect the second count); otherwise the input is left unchanged. -/
def dropFrac (s : List Char) : List Char :=
  match s with
  | sep :: c :: rest =>
    if (sep = '.' ∨ sep = ',') ∧ isDigitCh c then rest.dropWhile isDigitCh else s
  | _ => s

/-- Models the zone suffix accepted by Go `time.Parse` with the
`Z07:00` layout chunk: `Z`, or a signed two-digit `hh:mm` offset.  The
generic parser's range tests use `>` rather than `≥` ("as some people
do write offsets of 24 hours or 60 minutes"), so `hh ≤ 24` and
`mm ≤ 60` are accepted. -/
def parseZone : List Char → Option Int
  | ['Z'] => some 0
  | [sg, h1, h2, ':', m1, m2] =>
    if (sg = '+' ∨ sg = '-') ∧ isDigitCh h1 ∧ isDigitCh h2 ∧ isDigitCh m1 ∧ isDigitCh m2 then
      let hh := dval h1 * 10 + dval h2
      let mm := dval m1 * 10 + dval m2
      if hh ≤ 24 ∧ mm ≤ 60 then
        some (if sg = '-' then -((hh * 3600 + mm * 60 : Nat) : Int)
              else ((hh * 3600 + mm * 60 : Nat) : Int))
      else none
    else none
  | _ => none

/-- Models Go `time.Parse` with the `time.RFC3339` layout.  Go first
tries the strict `parseRFC3339` fast path and on failure falls back to
the generic layout parser; every string the fast path accepts the
generic parser accepts with the same field values, so the accepted
language is the generic one modelled here: four-digit year, zero-padded
month/day in range, literal `T`, a one-or-two-digit hour `≤ 23`
(`getnum` with `fixed=false`), zero-padded minute/second `≤ 59`, an
optional period- or comma-led fractional second, and a `Z` or signed
`hh:mm` zone with the wide `≤ 24`/`≤ 60` bounds.  Lowercase `t`/`z`
and leap-second `60` are rejected, as in Go. -/
def parseRFC3339 (s : List Char) : Option RFCTime :=
  match s with
  | y1 :: y2 :: y3 :: y4 :: '-' :: m1 :: m2 :: '-' :: d1 :: d2 :: 'T' :: rest =>
    if [y1, y2, y3, y4, m1, m2, d1, d2].all isDigitCh then
      let year := dval y1 * 1000 + dval y2 * 100 + dval y3 * 10 + dval y4
      let month := dval m1 * 10 + dval m2
      let day := dval d1 * 10 + dval d2
      match getnum1or2 rest with
      | none => none
      | some (hour, rest1) =>
        match rest1 with
        | ':' :: rest2 =>
          match getnum2 rest2 with
          | none => none
          | some (minute, rest3) =>
            match rest3 with
            | ':' :: rest4 =>
              match getnum2 rest4 with
              | none => none
              | some (second, rest5) =>
                if 1 ≤ month ∧ month ≤ 12 ∧ 1 ≤ day ∧ day ≤ daysIn month year ∧
                    hour ≤ 23 ∧ minute ≤ 59 ∧ second ≤ 59 then
                  match parseZone (dropFrac rest5) with
                  | some off => some ⟨year, month, day, hour, minute, second, off⟩
                  | none => none
                else none
            | _ => none
        | _ => none
    else none
  | _ => none

/-- Days since 1970-01-01 of a proleptic-Gregorian civil date (the
standard days-from-civil computation, matching Go's calendar). -/
def daysFromCivil (y m d : Int) : Int :=
  let y' := if m ≤ 2 then y - 1 else y
  let era := Int.fdiv y' 400
  let yoe := y' - era * 400
  let mp := Int.emod (m + 9) 12
  let doy := (153 * mp + 2) / 5 + d - 1
  let doe := yoe * 365 + yoe / 4 - yoe / 100 + doy
  era * 146097 + doe - 719468

/-- The Unix epoch seconds denoted by a parsed RFC3339 timestamp
(Go `Time.Unix()` of the parsed instant). -/
def unixOfRFCTime (t : RFCTime) : Int :=
  daysFromCivil t.year t.month t.day * 86400 +
    (t.hour : Int) * 3600 + (t.minute : Int) * 60 + (t.second : Int) - t.offset

/-- Embeds `parseMonkTimestamp` from `pkg/monkfs/fs.go`: empty or
unparseable strings yield 0; otherwise `uint64(t.Unix())`, i.e. the
epoch seconds wrapped modulo `2^64`. -/
def parseMonkTimestamp (ts : GoStr) : Nat :=
  if ts = [] then 0
  else
    match parseRFC3339 ts with
    | none => 0
    | some t => ((unixOfRFCTime t) % (2 ^ 64)).toNat

/-- Embeds `fillAttr` from `pkg/monkfs/fs.go`: size is `uint64(int64)`,
the three timestamps go through `parseMonkTimestamp`, and the mode is a
directory mode exactly when either type field equals "directory". -/
def fillAttr (stat : StatResponse) : Attr :=
  ⟨((stat.fileMetadata.size) % (2 ^ 64)).toNat,
    parseMonkTimestamp stat.fileMetadata.modifiedTime,
    parseMonkTimestamp stat.fileMetadata.createdTime,
    parseMonkTimestamp stat.fileMetadata.accessTime,
    if stat.type = gs "directory" ∨ stat.fileMetadata.type = gs "directory"
      then S_IFDIR ||| 0o755 else S_IFREG ||| 0o644⟩

/-- Embeds `parseStatMode` from `pkg/monkfs/fs.go`. -/
def parseStatMode (stat : StatResponse) : Nat :=
  if stat.type = gs "directory" ∨ stat.fileMetadata.type = gs "directory"
    then S_IFDIR ||| 0o755 else S_IFREG ||| 0o644

/-- The dynamic value of the `content` field of a retrieve response
(Go `interface{}` after JSON decoding): `nil`, a string, a byte slice,
or any other value.  The `other` constructor carries the generic JSON
serialization (`json.Marshal`) of that value, which is all
`contentToBytes` uses of it. -/
inductive Content where
  | null
  | str (s : GoStr)
  | bytes (b : List Char)
  | other (jsonSerialized : List Char)
deriving DecidableEq

/-- A Go string slice expression `s[lo:hi]`; out-of-range bounds are a
run-time panic, modelled as `.error ()`. -/
def goSlice (s : List Char) (lo hi : Nat) : Except Unit (List Char) :=
  if lo ≤ hi ∧ hi ≤ s.length then .ok ((s.drop lo).take (hi - lo)) else .error ()

/-- Embeds `contentToBytes` from `pkg/monkfs/fs.go`.  A string that
starts and ends with a double quote is sliced as `v[1:len(v)-1]`
(which panics — `.error ()` — when the string is the single character
`"`, since the slice is `v[1:0]`); other strings, byte slices and the
generic JSON serialization pass through. -/
def contentToBytes : Content → Except Unit (List Char)
  | .null => .ok []
  | .str v =>
    if v.head? = some '"' ∧ v.getLast? = some '"' then goSlice v 1 (v.length - 1)
    else .ok v
  | .bytes b => .ok b
  | .other j => .ok j

/-- Embeds `cache.CacheEntry`: the stored snapshot and its insertion
timestamp (time in seconds, modelled as `Nat`). -/
structure CacheEntry where
  data : StatResponse
  timestamp : Nat
deriving DecidableEq

/-- Embeds `cache.MetadataCache`: the path-keyed entry map and the TTL.
The Go map is modelled as a function from keys to optional entries; the
reader/writer lock only guards the map accesses and has no effect on
the sequential semantics modelled here. -/
structure MetadataCache where
  entries : GoStr → Option CacheEntry
  ttl : Nat

/-- Embeds `MetadataCache.Get`: absent when no entry exists or when the
entry's age `now - timestamp` exceeds the TTL (`time.Since(ts) > ttl`). -/
def MetadataCache.Get (c : MetadataCache) (now : Nat) (path : GoStr) : Option StatResponse :=
  match c.entries path with
  | none => none
  | some entry => if c.ttl < now - entry.timestamp then none else some entry.data

/-- Embeds `MetadataCache.Set`: stores the snapshot under the path with
the current time as insertion timestamp. -/
def MetadataCache.Set (c : MetadataCache) (now : Nat) (path : GoStr) (data : StatResponse) :
    MetadataCache :=
  ⟨fun q => if q = path then some ⟨data, now⟩ else c.entries q, c.ttl⟩

/-- Go map `delete` on the modelled entry map. -/
def mapDelete (m : GoStr → Option CacheEntry) (key : GoStr) : GoStr → Option CacheEntry :=
  fun q => if q = key then none else m q

/-- Models Go `filepath.Dir` for the cleaned slash-separated paths this
program uses as cache keys (no duplicate separators, no trailing
separator, no `.`/`..` segments): everything after the last `/` is
dropped, then the trailing `/` itself unless it is the root; a path
without `/` gives `.`. -/
def goDir (p : GoStr) : GoStr :=
  match p.reverse.dropWhile (fun c => c != '/') with
  | [] => ['.']
  | [_] => ['/']
  | _ :: rest => rest.reverse

/-- The ancestor-deletion loop of `MetadataCache.Invalidate`:
`for parent := Dir(path); parent != "/" && parent != "."; parent = Dir(parent)`.
The fuel argument only bounds the iteration count; `Invalidate` passes
enough fuel that the loop always reaches its stop marker first. -/
def invalidateLoop : Nat → (GoStr → Option CacheEntry) → GoStr → (GoStr → Option CacheEntry)
  | 0, m, _ => m
  | fuel + 1, m, parent =>
    if parent = ['/'] ∨ parent = ['.'] then m
    else invalidateLoop fuel (mapDelete m parent) (goDir parent)

/-- Embeds `MetadataCache.Invalidate`: deletes the path itself, then
every `filepath.Dir` ancestor until the loop reaches `/` or `.`. -/
def MetadataCache.Invalidate (c : MetadataCache) (path : GoStr) : MetadataCache :=
  ⟨invalidateLoop path.length (mapDelete c.entries path) (goDir path), c.ttl⟩

/-- Embeds `MetadataCache.Clear`. -/
def MetadataCache.Clear (c : MetadataCache) : MetadataCache :=
  ⟨fun _ => none, c.ttl⟩

/-- Embeds `MonkFS.getPath`: go-fuse's `Inode.Path nil` is `""` for the
root and the slash-joined relative path otherwise; `getPath` maps these
to `/` and `/` + path. -/
def getPath (nodePath : GoStr) : GoStr :=
  if nodePath = [] then ['/'] else '/' :: nodePath

/-- Modelled go-fuse semantics: the child inode created by
`n.NewInode` during `Lookup` has `Inode.Path nil` equal to the parent's
relative path extended by the name (the name itself when the parent is
the root, whose relative path is `""`). -/
def childNodePath (parentNodePath name : GoStr) : GoStr :=
  if parentNodePath = [] then name else parentNodePath ++ '/' :: name

/-- Result of a `Getattr` callback: the errno-or-attributes outcome,
the metadata cache afterwards, and the number of remote API calls the
callback issued. -/
structure GetattrOut where
  result : Except Nat Attr
  cache : MetadataCache
  calls : Nat

/-- Embeds `MonkFS.Getattr` from `pkg/monkfs/fs.go`: on a cache hit the
cached snapshot is converted by `fillAttr` and returned with no remote
call; on a miss the remote `Stat` result (`statResult` is the outcome
of that single call, made with the "file_metadata" pick hint) is either
translated to an errno (`ENOENT` via `IsNotFound`, otherwise
`HTTPErrorToErrno`) or cached under the resolved path and converted. -/
def MonkFS.Getattr (c : MetadataCache) (now : Nat) (nodePath : GoStr)
    (statResult : Except GoError StatResponse) : GetattrOut :=
  let path := getPath nodePath
  match c.Get now path with
  | some cached => ⟨.ok (fillAttr cached), c, 0⟩
  | none =>
    match statResult with
    | .error e =>
      if IsNotFound e then ⟨.error Errno.ENOENT, c, 1⟩
      else ⟨.error (HTTPErrorToErrno (some e)), c, 1⟩
    | .ok resp => ⟨.ok (fillAttr resp), c.Set now path resp, 1⟩

/-- Result of a `Lookup` callback: errno or filled attributes, the node
path of the created child inode, the child's stable mode, the cache
afterwards, and the number of remote calls issued. -/
structure LookupOut where
  result : Except Nat Attr
  childPath : Option GoStr
  childMode : Option Nat
  cache : MetadataCache
  calls : Nat

/-- Embeds `MonkFS.Lookup` from `pkg/monkfs/fs.go`: the remote path is
`n.getPath() + "/" + name`; a successful `Stat` (with the
"file_metadata" pick hint) is cached under that concatenated key and a
child inode is created; failures translate to errnos and leave the
cache untouched. -/
def MonkFS.Lookup (c : MetadataCache) (now : Nat) (nodePath name : GoStr)
    (statResult : Except GoError StatResponse) : LookupOut :=
  let path := getPath nodePath ++ '/' :: name
  match statResult with
  | .error e =>
    if IsNotFound e then ⟨.error Errno.ENOENT, none, none, c, 1⟩
    else ⟨.error (HTTPErrorToErrno (some e)), none, none, c, 1⟩
  | .ok resp =>
    ⟨.ok (fillAttr resp), some (childNodePath nodePath name), some (parseStatMode resp),
      c.Set now path resp, 1⟩

/-- Result of an `Open` callback: the file-handle path when the
existence check succeeds, the errno (0 on success), the cache
afterwards, and the number of remote calls issued. -/
structure OpenOut where
  handle : Option GoStr
  errno : Nat
  cache : MetadataCache
  calls : Nat

/-- Embeds `MonkFS.Open` from `pkg/monkfs/fs.go`: one `Stat` call (no
pick hint) validates existence; on success the returned handle carries
only the resolved path (plus the kernel keep-cache flag, not modelled);
the cache is never touched. -/
def MonkFS.Open (c : MetadataCache) (nodePath : GoStr)
    (statResult : Except GoError StatResponse) : OpenOut :=
  let path := getPath nodePath
  match statResult with
  | .error e =>
    if IsNotFound e then ⟨none, Errno.ENOENT, c, 1⟩
    else ⟨none, HTTPErrorToErrno (some e), c, 1⟩
  | .ok _ => ⟨some path, 0, c, 1⟩

/-- The arguments of the single `Retrieve` call a `Read` callback
issues. -/
structure RetrieveCall where
  path : GoStr
  startOffset : Nat
  maxBytes : Nat
  pick : GoStr
deriving DecidableEq

/-- Outcome of a `Read` callback: returned bytes with errno 0, an
errno, or a Go run-time panic escaping the callback. -/
inductive ReadOutcome where
  | ok (data : List Char)
  | errno (e : Nat)
  | crash
deriving DecidableEq

/-- Embeds `MonkFileHandle.Read` from `pkg/monkfs/fs.go`: one
`Retrieve` call with the requested offset and buffer length and the
"content" pick hint; the response content is converted by
`contentToBytes` (whose panic propagates as `.crash`); an offset at or
past the end of the converted data returns empty bytes with errno 0,
otherwise the suffix `data[off:]` is returned. -/
def MonkFileHandle.Read (path : GoStr) (off destLen : Nat)
    (retrieveResult : Except GoError Content) : ReadOutcome × RetrieveCall :=
  let call : RetrieveCall := ⟨path, off, destLen, gs "content"⟩
  match retrieveResult with
  | .error e => (.errno (HTTPErrorToErrno (some e)), call)
  | .ok content =>
    match contentToBytes content with
    | .error _ => (.crash, call)
    | .ok data =>
      if data.length ≤ off then (.ok [], call) else (.ok (data.drop off), call)

/-- Joins path segments with `/` separators. -/
def joinSegs : List GoStr → GoStr
  | [] => []
  | [s] => s
  | s :: rest => s ++ '/' :: joinSegs rest

/-- The cleaned path with the given segments: absolute (leading `/`)
when `rooted`, relative otherwise. -/
def pathOf (rooted : Bool) (segs : List GoStr) : GoStr :=
  (if rooted then ['/'] else []) ++ joinSegs segs

/-- The path itself together with all its ancestor directories above
the root: the paths of every nonempty prefix of the segment list. -/
def pathChain (rooted : Bool) (segs : List GoStr) : List GoStr :=
  (List.range segs.length).map (fun i => pathOf rooted (segs.take (i + 1)))

/-- A well-formed path segment: nonempty, no separator, and not a
`.`/`..` dot segment (the form of every path this program builds). -/
def ValidSeg (s : GoStr) : Prop := s ≠ [] ∧ '/' ∉ s ∧ s ≠ ['.'] ∧ s ≠ ['.', '.']

/-- `ValidSeg` is decidable, so concrete instantiations can be checked
by evaluation. -/
instance (s : GoStr) : Decidable (ValidSeg s) := by
  unfold ValidSeg
  infer_instance

/-- Dropping a prefix whose elements all satisfy the predicate reduces
`dropWhile` on an append to `dropWhile` on the suffix. -/
theorem dropWhile_append_of_all {p : Char → Bool} {xs : List Char} (ys : List Char)
    (h : ∀ x ∈ xs, p x = true) : (xs ++ ys).dropWhile p = ys.dropWhile p := by
  induction xs with
  | nil => simp
  | cons a l ih =>
    have ha : p a = true := h a (by simp)
    simp only [List.cons_append, List.dropWhile_cons, ha, if_true]
    exact ih (fun x hx => h x (by simp [hx]))

/-- `goDir` drops the final segment of a longer path. -/
theorem goDir_append_seg (P a : GoStr) (hP : P ≠ []) (ha : '/' ∉ a) :
    goDir (P ++ '/' :: a) = P := by
  have hall : ∀ x ∈ a.reverse, (x != '/') = true := by
    intro x hx
    simp only [List.mem_reverse] at hx
    simp only [bne_iff_ne, ne_eq]
    exact fun h => ha (h ▸ hx)
  have hdrop : (P ++ '/' :: a).reverse.dropWhile (fun c => c != '/') = '/' :: P.reverse := by
    rw [List.reverse_append, List.reverse_cons, List.append_assoc,
      dropWhile_append_of_all _ hall]
    simp [List.dropWhile_cons]
  unfold goDir
  rw [hdrop]
  cases hPr : P.reverse with
  | nil => exact absurd (by simpa using congrArg List.reverse hPr) hP
  | cons c r =>
    simp only []
    rw [← hPr, List.reverse_reverse]

/-- `goDir` of a single-segment absolute path is the root marker. -/
theorem goDir_root_single (a : GoStr) (ha : '/' ∉ a) : goDir ('/' :: a) = ['/'] := by
  have hall : ∀ x ∈ a.reverse, (x != '/') = true := by
    intro x hx
    simp only [List.mem_reverse] at hx
    simp only [bne_iff_ne, ne_eq]
    exact fun h => ha (h ▸ hx)
  have hdrop : ('/' :: a).reverse.dropWhile (fun c => c != '/') = ['/'] := by
    rw [List.reverse_cons, dropWhile_append_of_all _ hall]
    simp [List.dropWhile_cons]
  unfold goDir
  rw [hdrop]

/-- `goDir` of a single-segment relative path is the `.` marker. -/
theorem goDir_rel_single (a : GoStr) (ha : '/' ∉ a) : goDir a = ['.'] := by
  have hall : ∀ x ∈ a.reverse, (x != '/') = true := by
    intro x hx
    simp only [List.mem_reverse] at hx
    simp only [bne_iff_ne, ne_eq]
    exact fun h => ha (h ▸ hx)
  have hdrop : a.reverse.dropWhile (fun c => c != '/') = [] := by
    have h2 := @dropWhile_append_of_all (fun c => c != '/') a.reverse [] hall
    simpa using h2
  unfold goDir
  rw [hdrop]

/-- Unfolding equation for `joinSegs` on a cons with nonempty tail. -/
theorem joinSegs_cons (s : GoStr) (t : List GoStr) (ht : t ≠ []) :
    joinSegs (s :: t) = s ++ '/' :: joinSegs t := by
  cases t with
  | nil => exact absurd rfl ht
  | cons u v => rfl

/-- Unfolding equation for `pathOf` with a relative path. -/
theorem pathOf_false (segs : List GoStr) : pathOf false segs = joinSegs segs := rfl

/-- Unfolding equation for `pathOf` with an absolute path. -/
theorem pathOf_true (segs : List GoStr) : pathOf true segs = '/' :: joinSegs segs := rfl

/-- `joinSegs` distributes over appending a final segment. -/
theorem joinSegs_append_single (l : List GoStr) (a : GoStr) (hl : l ≠ []) :
    joinSegs (l ++ [a]) = joinSegs l ++ '/' :: a := by
  induction l with
  | nil => exact absurd rfl hl
  | cons s t ih =>
    by_cases ht : t = []
    · subst ht; simp [joinSegs]
    · have h1 : joinSegs ((s :: t) ++ [a]) = s ++ '/' :: joinSegs (t ++ [a]) := by
        rw [List.cons_append, joinSegs_cons s (t ++ [a]) (by simp)]
      rw [h1, ih ht, joinSegs_cons s t ht]
      simp [List.append_assoc]

/-- The join of a nonempty list of valid segments is nonempty. -/
theorem joinSegs_ne_nil (segs : List GoStr) (h1 : segs ≠ [])
    (h2 : ∀ s ∈ segs, ValidSeg s) : joinSegs segs ≠ [] := by
  cases segs with
  | nil => exact absurd rfl h1
  | cons s t =>
    cases t with
    | nil => exact (h2 s (by simp)).1
    | cons u v =>
      simp [joinSegs]

/-- `pathOf` distributes over appending a final segment. -/
theorem pathOf_append_single (rooted : Bool) (l : List GoStr) (a : GoStr) (hl : l ≠ []) :
    pathOf rooted (l ++ [a]) = pathOf rooted l ++ '/' :: a := by
  unfold pathOf
  rw [joinSegs_append_single l a hl, List.append_assoc]

/-- The path of a nonempty valid segment list is nonempty. -/
theorem pathOf_ne_nil (rooted : Bool) (segs : List GoStr) (h1 : segs ≠ [])
    (h2 : ∀ s ∈ segs, ValidSeg s) : pathOf rooted segs ≠ [] := by
  have hj := joinSegs_ne_nil segs h1 h2
  cases rooted <;> simp [pathOf_false, pathOf_true, hj]

/-- The path of a nonempty valid segment list is neither the root
marker nor the relative-root marker, so the invalidation loop walks
into it. -/
theorem pathOf_ne_marker (rooted : Bool) (segs : List GoStr) (h1 : segs ≠ [])
    (h2 : ∀ s ∈ segs, ValidSeg s) :
    pathOf rooted segs ≠ ['/'] ∧ pathOf rooted segs ≠ ['.'] := by
  cases rooted with
  | true =>
    have hj := joinSegs_ne_nil segs h1 h2
    constructor <;> simp [pathOf_true, hj]
  | false =>
    cases segs with
    | nil => exact absurd rfl h1
    | cons s t =>
      have hv := h2 s (by simp)
      cases t with
      | nil =>
        rw [pathOf_false]
        refine ⟨fun h => ?_, fun h => ?_⟩
        · simp only [joinSegs] at h
          exact hv.2.1 (h ▸ (by simp : '/' ∈ ['/']))
        · simp only [joinSegs] at h
          exact hv.2.2.1 h
      | cons u v =>
        have hs : 1 ≤ s.length := List.length_pos.mpr hv.1
        rw [pathOf_false, joinSegs_cons s (u :: v) (by simp)]
        refine ⟨fun h => ?_, fun h => ?_⟩ <;>
        · have hlen := congrArg List.length h
          simp [List.length_append] at hlen
          omega

/-- The invalidation loop stops immediately at a root marker,
regardless of remaining fuel. -/
theorem invalidateLoop_marker (fuel : Nat) (m : GoStr → Option CacheEntry) (parent : GoStr)
    (h : parent = ['/'] ∨ parent = ['.']) : invalidateLoop fuel m parent = m := by
  cases fuel with
  | zero => rfl
  | succ n => rcases h with h | h <;> simp [invalidateLoop, h]

/-- `pathChain` distributes over appending a final segment. -/
theorem pathChain_append_single (rooted : Bool) (l : List GoStr) (a : GoStr) :
    pathChain rooted (l ++ [a]) = pathChain rooted l ++ [pathOf rooted (l ++ [a])] := by
  unfold pathChain
  have hlen : (l ++ [a]).length = l.length + 1 := by simp
  rw [hlen, List.range_succ, List.map_append]
  congr 1
  · refine List.map_congr_left ?_
    intro i hi
    have hle : i + 1 ≤ l.length := by
      simp only [List.mem_range] at hi
      omega
    rw [List.take_append_of_le_length hle]
  · simp only [List.map_cons, List.map_nil]
    rw [← hlen, List.take_length]

/-- The invalidation loop, entered after deleting the path itself,
deletes exactly the path and its ancestors above the root and leaves
every other key of the map untouched. -/
theorem invalidateLoop_chain (segs : List GoStr) :
    ∀ (rooted : Bool) (m : GoStr → Option CacheEntry) (fuel : Nat) (q : GoStr),
      segs ≠ [] → (∀ s ∈ segs, ValidSeg s) → (pathOf rooted segs).length ≤ fuel →
      invalidateLoop fuel (mapDelete m (pathOf rooted segs)) (goDir (pathOf rooted segs)) q =
        if q ∈ pathChain rooted segs then none else m q := by
  induction segs using List.reverseRecOn with
  | nil => intro _ _ _ _ h; exact absurd rfl h
  | append_singleton l a ih =>
    intro rooted m fuel q _ hvalid hfuel
    have hva : ValidSeg a := hvalid a (by simp)
    by_cases hl : l = []
    · subst hl
      simp only [List.nil_append] at hfuel ⊢
      have hgd : goDir (pathOf rooted [a]) = (if rooted then ['/'] else ['.']) := by
        cases rooted
        · rw [pathOf_false]
          simpa [joinSegs] using goDir_rel_single a hva.2.1
        · rw [pathOf_true]
          simpa using goDir_root_single a hva.2.1
      rw [hgd, invalidateLoop_marker _ _ _ (by cases rooted <;> simp)]
      have hchain : pathChain rooted [a] = [pathOf rooted [a]] := by
        simp [pathChain, List.range_succ]
      simp only [hchain, List.mem_singleton, mapDelete]
    · have hvl : ∀ s ∈ l, ValidSeg s := fun s hs => hvalid s (by simp [hs])
      have hPl : pathOf rooted l ≠ [] := pathOf_ne_nil rooted l hl hvl
      have hpath : pathOf rooted (l ++ [a]) = pathOf rooted l ++ '/' :: a :=
        pathOf_append_single rooted l a hl
      have hgd : goDir (pathOf rooted (l ++ [a])) = pathOf rooted l := by
        rw [hpath]
        exact goDir_append_seg _ _ hPl hva.2.1
      have ha1 : 1 ≤ a.length := List.length_pos.mpr hva.1
      have hlen : (pathOf rooted l).length + 2 ≤ fuel := by
        rw [hpath] at hfuel
        simp [List.length_append] at hfuel
        omega
      obtain ⟨fuel', rfl⟩ : ∃ f, fuel = f + 1 := ⟨fuel - 1, by omega⟩
      rw [hgd]
      have hnm := pathOf_ne_marker rooted l hl hvl
      rw [invalidateLoop, if_neg (by push_neg; exact hnm)]
      rw [ih rooted (mapDelete m (pathOf rooted (l ++ [a]))) fuel' q hl hvl (by omega)]
      rw [pathChain_append_single]
      by_cases h1 : q ∈ pathChain rooted l
      · simp [h1]
      · by_cases h2 : q = pathOf rooted (l ++ [a])
        · simp [h1, h2, mapDelete]
        · simp [h1, h2, mapDelete]

/-- A concrete attribute snapshot used by the concrete instantiations
below. -/
def statExample : StatResponse :=
  ⟨true, ⟨42, gs "2025-01-01T00:00:00Z", [], [], gs "file", []⟩, gs "file"⟩

/-- A concrete cache holding `/a` (inserted at time 5) with TTL 30. -/
def cacheExample : MetadataCache :=
  ⟨fun q => if q = gs "/a" then some ⟨statExample, 5⟩ else none, 30⟩

/-- A concrete empty cache with TTL 30. -/
def emptyCacheExample : MetadataCache := ⟨fun _ => none, 30⟩

/-- A concrete cache holding only the sibling path `/a/x`. -/
def cacheExampleSibling : MetadataCache :=
  ⟨fun q => if q = gs "/a/x" then some ⟨statExample, 5⟩ else none, 30⟩

/-- C3: the error translation is a pure total function realizing the
spec's table: nil error maps to success 0; API errors map by status
(401 to EACCES, 403 to EPERM, 404 to ENOENT for every app code, 400 to
EISDIR for NOT_A_FILE and EINVAL for every other app code including
INVALID_PATH and WILDCARDS_NOT_ALLOWED, 409 to EEXIST, every other
status to EIO); every transport failure maps to EIO. -/
theorem c3_error_table (s : Nat) (code msg : GoStr) :
    HTTPErrorToErrno none = 0
  ∧ HTTPErrorToErrno (some (.transport msg)) = Errno.EIO
  ∧ HTTPErrorToErrno (some (.api 401 code msg)) = Errno.EACCES
  ∧ HTTPErrorToErrno (some (.api 403 code msg)) = Errno.EPERM
  ∧ HTTPErrorToErrno (some (.api 404 code msg)) = Errno.ENOENT
  ∧ HTTPErrorToErrno (some (.api 400 (gs "NOT_A_FILE") msg)) = Errno.EISDIR
  ∧ HTTPErrorToErrno (some (.api 400 (gs "INVALID_PATH") msg)) = Errno.EINVAL
  ∧ HTTPErrorToErrno (some (.api 400 (gs "WILDCARDS_NOT_ALLOWED") msg)) = Errno.EINVAL
  ∧ (code ≠ gs "NOT_A_FILE" → HTTPErrorToErrno (some (.api 400 code msg)) = Errno.EINVAL)
  ∧ HTTPErrorToErrno (some (.api 409 code msg)) = Errno.EEXIST
  ∧ (s ∉ [401, 403, 404, 400, 409] → HTTPErrorToErrno (some (.api s code msg)) = Errno.EIO) := by
  refine ⟨rfl, rfl, rfl, rfl, rfl, rfl, rfl, rfl, ?_, rfl, ?_⟩
  · intro h
    by_cases h1 : code = gs "INVALID_PATH"
    · subst h1; rfl
    · by_cases h2 : code = gs "WILDCARDS_NOT_ALLOWED"
      · subst h2; rfl
      · simp [HTTPErrorToErrno, h, h1, h2]
  · intro h
    simp only [List.mem_cons, List.mem_singleton, not_or] at h
    obtain ⟨h1, h2, h3, h4, h5, -⟩ := h
    simp [HTTPErrorToErrno, h1, h2, h3, h4, h5]

/-- C3 witness: the table evaluated at an unmapped status and at a 400
with an unlisted app code. -/
theorem c3_witness :
    HTTPErrorToErrno (some (.api 500 (gs "SOMETHING") [])) = Errno.EIO
  ∧ HTTPErrorToErrno (some (.api 400 (gs "OTHER") [])) = Errno.EINVAL :=
  ⟨(c3_error_table 500 (gs "SOMETHING") []).2.2.2.2.2.2.2.2.2.2 (by decide),
   (c3_error_table 400 (gs "OTHER") []).2.2.2.2.2.2.2.2.1 (by decide)⟩

/-- C5: a snapshot stored by `Set` is returned by `Get` at the same
instant; `Get` returns the stored snapshot whenever the entry's age is
at most the TTL; and `Get` returns `none` both when no entry exists and
when the entry's age exceeds the TTL — the same `none` in both cases,
so callers cannot distinguish them. -/
theorem c5_cache_get_set (c : MetadataCache) (now : Nat) (p : GoStr) (v : StatResponse)
    (e : CacheEntry) :
    ((c.Set now p v).Get now p = some v)
  ∧ (c.entries p = some e → now - e.timestamp ≤ c.ttl → c.Get now p = some e.data)
  ∧ (c.entries p = none → c.Get now p = none)
  ∧ (c.entries p = some e → c.ttl < now - e.timestamp → c.Get now p = none) := by
  refine ⟨?_, ?_, ?_, ?_⟩
  · simp [MetadataCache.Get, MetadataCache.Set]
  · intro h1 h2
    simp [MetadataCache.Get, h1, Nat.not_lt.mpr h2]
  · intro h1
    simp [MetadataCache.Get, h1]
  · intro h1 h2
    simp [MetadataCache.Get, h1, h2]

/-- C5 witness: the four cache facts at concrete instants around a TTL
of 30 with an entry inserted at time 5. -/
theorem c5_witness :
    ((cacheExample.Set 100 (gs "/a") statExample).Get 100 (gs "/a") = some statExample)
  ∧ (cacheExample.Get 10 (gs "/a") = some statExample)
  ∧ (cacheExample.Get 99 (gs "/b") = none)
  ∧ (cacheExample.Get 50 (gs "/a") = none) :=
  ⟨(c5_cache_get_set cacheExample 100 (gs "/a") statExample ⟨statExample, 5⟩).1,
   (c5_cache_get_set cacheExample 10 (gs "/a") statExample ⟨statExample, 5⟩).2.1 rfl (by decide),
   (c5_cache_get_set cacheExample 99 (gs "/b") statExample ⟨statExample, 5⟩).2.2.1 rfl,
   (c5_cache_get_set cacheExample 50 (gs "/a") statExample ⟨statExample, 5⟩).2.2.2 rfl (by decide)⟩

/-- C6: invalidating a well-formed path removes the entry for the path
and for each of its ancestor directories above the root (the paths of
all nonempty prefixes of its segment list), and leaves the entry of
every other key — in particular every sibling — unchanged.  Both the
absolute form (stopping at the `/` marker) and the relative form
(stopping at the `.` marker) are covered by `rooted`. -/
theorem c6_invalidate_cascade (c : MetadataCache) (rooted : Bool) (segs : List GoStr)
    (q : GoStr) (h1 : segs ≠ []) (h2 : ∀ s ∈ segs, ValidSeg s) :
    (c.Invalidate (pathOf rooted segs)).entries q =
      if q ∈ pathChain rooted segs then none else c.entries q :=
  invalidateLoop_chain segs rooted c.entries (pathOf rooted segs).length q h1 h2 le_rfl

/-- C6 witness: invalidating `/a/b/c` leaves the sibling `/a/x`
untouched. -/
theorem c6_witness :
    (cacheExampleSibling.Invalidate (pathOf true [gs "a", gs "b", gs "c"])).entries (gs "/a/x") =
      some ⟨statExample, 5⟩ := by
  have h := c6_invalidate_cascade cacheExampleSibling true [gs "a", gs "b", gs "c"] (gs "/a/x")
    (by decide) (by decide)
  rw [h, if_neg (by decide)]
  rfl

/-- C7: when the cache holds an entry for the resolved path whose age
is within the TTL, `Getattr` succeeds with the attributes converted
from the cached snapshot by `fillAttr` and issues no remote call. -/
theorem c7_getattr_cache_hit (c : MetadataCache) (now : Nat) (np : GoStr)
    (sr : Except GoError StatResponse) (e : CacheEntry)
    (h1 : c.entries (getPath np) = some e) (h2 : now - e.timestamp ≤ c.ttl) :
    MonkFS.Getattr c now np sr = ⟨.ok (fillAttr e.data), c, 0⟩ := by
  have hget : c.Get now (getPath np) = some e.data := by
    simp [MetadataCache.Get, h1, Nat.not_lt.mpr h2]
  simp [MonkFS.Getattr, hget]

/-- C7 witness: a concrete cache hit with zero remote calls. -/
theorem c7_witness :
    MonkFS.Getattr cacheExample 10 (gs "a") (.ok statExample) =
      ⟨.ok (fillAttr statExample), cacheExample, 0⟩ :=
  c7_getattr_cache_hit cacheExample 10 (gs "a") (.ok statExample) ⟨statExample, 5⟩ rfl (by decide)

/-- C8: a failing remote fetch (any `GoError`, including the 404
not-found case) leaves the metadata cache of `Getattr`, `Lookup` and
`Open` exactly as it was: no entry is inserted, refreshed or removed,
and no negative entry is created. -/
theorem c8_failed_fetch_preserves_cache (c : MetadataCache) (now : Nat) (np name : GoStr)
    (err : GoError) :
    (MonkFS.Getattr c now np (.error err)).cache = c
  ∧ (MonkFS.Lookup c now np name (.error err)).cache = c
  ∧ (MonkFS.Open c np (.error err)).cache = c := by
  refine ⟨?_, ?_, ?_⟩
  · cases hg : c.Get now (getPath np) with
    | none => by_cases h : IsNotFound err <;> simp [MonkFS.Getattr, hg, h]
    | some cached => simp [MonkFS.Getattr, hg]
  · by_cases h : IsNotFound err <;> simp [MonkFS.Lookup, h]
  · by_cases h : IsNotFound err <;> simp [MonkFS.Open, h]

/-- C1 (amended): a successful `Read` issues exactly one `Retrieve`
call with the requested offset and buffer length and the "content"
pick hint, converts the response by `contentToBytes` — the empty bytes
for `nil`, a JSON-quoted string unquoted, other strings and raw bytes
passed through, any other value as its generic JSON serialization —
and returns the converted bytes from the requested offset onward
(`data[off:]`, empty when the offset is at or past the end), not the
whole converted byte string. -/
theorem c1_read_retrieve_convert (p : GoStr) (off destLen : Nat) (content : Content)
    (data mid w bs j : List Char) (h : contentToBytes content = .ok data) :
    (MonkFileHandle.Read p off destLen (.ok content) =
      (.ok (data.drop off), ⟨p, off, destLen, gs "content"⟩))
  ∧ contentToBytes .null = .ok []
  ∧ contentToBytes (.str ('"' :: mid ++ ['"'])) = .ok mid
  ∧ (w.head? ≠ some '"' ∨ w.getLast? ≠ some '"' → contentToBytes (.str w) = .ok w)
  ∧ contentToBytes (.bytes bs) = .ok bs
  ∧ contentToBytes (.other j) = .ok j := by
  refine ⟨?_, rfl, ?_, ?_, rfl, rfl⟩
  · by_cases hle : data.length ≤ off
    · simp [MonkFileHandle.Read, h, hle, List.drop_eq_nil_of_le hle]
    · simp [MonkFileHandle.Read, h, hle]
  · have hhead : ('"' :: mid ++ ['"']).head? = some '"' := rfl
    have hlast : ('"' :: mid ++ ['"']).getLast? = some '"' := by
      rw [show ('"' :: mid ++ ['"']) = ('"' :: mid) ++ ['"'] from rfl, List.getLast?_concat]
    have hlen : ('"' :: mid ++ ['"']).length = mid.length + 2 := by
      simp
    show (if ('"' :: mid ++ ['"']).head? = some '"' ∧ ('"' :: mid ++ ['"']).getLast? = some '"'
        then goSlice ('"' :: mid ++ ['"']) 1 (('"' :: mid ++ ['"']).length - 1)
        else Except.ok ('"' :: mid ++ ['"'])) = .ok mid
    rw [if_pos ⟨hhead, hlast⟩]
    unfold goSlice
    rw [hlen, if_pos (by omega : 1 ≤ mid.length + 2 - 1 ∧ mid.length + 2 - 1 ≤ mid.length + 2)]
    show Except.ok ((mid ++ ['"']).take (mid.length + 2 - 1 - 1)) = .ok mid
    rw [show mid.length + 2 - 1 - 1 = mid.length from by omega, List.take_left]
  · intro hw
    have hcond : ¬(w.head? = some '"' ∧ w.getLast? = some '"') := by
      rcases hw with hw | hw <;> exact fun hc => hw (by simp [hc.1, hc.2])
    simp [contentToBytes, hcond]

/-- C1 counterexample to the claim as stated: with offset 1 and the
unquoted two-byte content "ab", the converted bytes are "ab" but the
callback returns only "b" — not exactly the converted bytes. -/
theorem c1_counterexample :
    contentToBytes (.str (gs "ab")) = .ok (gs "ab")
  ∧ (MonkFileHandle.Read (gs "/f") 1 5 (.ok (.str (gs "ab")))).1 = .ok (gs "b")
  ∧ gs "b" ≠ gs "ab" :=
  ⟨rfl, rfl, by decide⟩

/-- C1 witness: the amended theorem applied at offset 1 on content
"abc" and at the quoted string `"hi"`. -/
theorem c1_witness :
    (MonkFileHandle.Read (gs "/f") 1 5 (.ok (.str (gs "abc"))) =
      (.ok ((gs "abc").drop 1), ⟨gs "/f", 1, 5, gs "content"⟩))
  ∧ contentToBytes (.str ('"' :: gs "hi" ++ ['"'])) = .ok (gs "hi") :=
  ⟨(c1_read_retrieve_convert (gs "/f") 1 5 (.str (gs "abc")) (gs "abc") (gs "hi") (gs "ab")
      (gs "xy") (gs "123") rfl).1,
   (c1_read_retrieve_convert (gs "/f") 1 5 (.str (gs "abc")) (gs "abc") (gs "hi") (gs "ab")
      (gs "xy") (gs "123") rfl).2.2.1⟩

/-- C2: when the requested offset is at or past the end of the
converted content data, `Read` returns the empty byte string with
success (the `.ok` outcome carries errno 0), never an error. -/
theorem c2_read_past_end (p : GoStr) (off destLen : Nat) (content : Content)
    (data : List Char) (h : contentToBytes content = .ok data) (hoff : data.length ≤ off) :
    (MonkFileHandle.Read p off destLen (.ok content)).1 = .ok [] := by
  simp [MonkFileHandle.Read, h, hoff]

/-- C2 witness: reading at offset 7 of two-byte content returns empty
bytes with success. -/
theorem c2_witness : (MonkFileHandle.Read (gs "/f") 7 4 (.ok (.str (gs "ab")))).1 = .ok [] :=
  c2_read_past_end (gs "/f") 7 4 (.str (gs "ab")) (gs "ab") rfl (by decide)

/-- C4 failing input: on the one-character content string `"`, the
conversion takes the quoted branch and evaluates the Go slice
`v[1:len(v)-1] = v[1:0]`, whose bounds are invalid — a run-time panic
that escapes the `Read` callback, contradicting the claim that the
conversion is total and that no callback ever raises. -/
theorem c4_quote_string_crash :
    contentToBytes (.str ['"']) = .error ()
  ∧ (MonkFileHandle.Read (gs "/f") 0 4096 (.ok (.str ['"']))).1 = .crash :=
  ⟨rfl, rfl⟩

/-- C9 (amended): the empty string and every string the code's RFC3339
layout parser (`time.Parse` with the RFC3339 layout, fast path plus
generic fallback, modelled by `parseRFC3339`) rejects convert to 0
without error; every string the parser accepts that denotes an instant
at or after the Unix epoch converts to the exact epoch seconds it
denotes.  The parser's accepted set sits on both sides of the RFC3339
boundary — it rejects some valid RFC3339 strings (lowercase `t`/`z`)
and accepts some invalid ones (comma fractions, single-digit hours,
±24:00/±hh:60 zones) — and an accepted pre-epoch instant wraps modulo
`2^64`; see the counterexample for all three divergences from the
claim as stated. -/
theorem c9_timestamp_conversion (ts : GoStr) (t : RFCTime) :
    parseMonkTimestamp [] = 0
  ∧ (parseRFC3339 ts = none → parseMonkTimestamp ts = 0)
  ∧ (parseRFC3339 ts = some t → 0 ≤ unixOfRFCTime t → unixOfRFCTime t < 2 ^ 64 →
      parseMonkTimestamp ts = (unixOfRFCTime t).toNat) := by
  refine ⟨rfl, ?_, ?_⟩
  · intro h
    by_cases hts : ts = [] <;> simp [parseMonkTimestamp, hts, h]
  · intro h h0 hlt
    have hts : ts ≠ [] := by
      intro he
      rw [he, show parseRFC3339 ([] : GoStr) = none from rfl] at h
      exact Option.noConfusion h
    have hlt' : unixOfRFCTime t < (18446744073709551616 : Int) := by
      calc unixOfRFCTime t < 2 ^ 64 := hlt
        _ = 18446744073709551616 := by norm_num
    have hemod : unixOfRFCTime t % (18446744073709551616 : Int) = unixOfRFCTime t :=
      Int.emod_eq_of_lt h0 hlt'
    simp [parseMonkTimestamp, hts, h, hemod]

/-- C9 counterexample to the claim as stated, in its three failing
directions.  First: "1900-01-01T00:00:00Z" is valid RFC3339 denoting
epoch seconds -2208988800, but the conversion returns the `uint64`
wrap 18446744071500562816, not the epoch seconds of that instant.
Second: "2025-01-01t00:00:00z" is valid RFC3339 (lowercase `t`/`z`
markers) denoting epoch seconds 1735689600, but Go's parser rejects it
and the conversion returns 0.  Third: "2025-01-01T00:00:00,5Z" is not
valid RFC3339 (comma fractional-second separator), yet the generic
fallback parses it and the conversion returns 1735689600, not 0. -/
theorem c9_counterexample :
    (parseRFC3339 (gs "1900-01-01T00:00:00Z") = some ⟨1900, 1, 1, 0, 0, 0, 0⟩
      ∧ unixOfRFCTime ⟨1900, 1, 1, 0, 0, 0, 0⟩ = -2208988800
      ∧ parseMonkTimestamp (gs "1900-01-01T00:00:00Z") = 18446744071500562816
      ∧ (18446744071500562816 : Int) ≠ -2208988800)
  ∧ parseMonkTimestamp (gs "2025-01-01t00:00:00z") = 0
  ∧ (parseMonkTimestamp (gs "2025-01-01T00:00:00,5Z") = 1735689600
      ∧ (1735689600 : Nat) ≠ 0) :=
  ⟨⟨by decide, by decide, by decide, by decide⟩, by decide, by decide, by decide⟩

/-- C9 witness: the amended theorem applied to concrete accepted
strings — the source comment's example, a comma-fraction string only
the generic fallback accepts, a single-digit-hour string, and a
+24:00-zone string. -/
theorem c9_witness :
    parseMonkTimestamp (gs "2025-11-17T19:26:40Z") =
      (unixOfRFCTime ⟨2025, 11, 17, 19, 26, 40, 0⟩).toNat
  ∧ parseMonkTimestamp (gs "2025-01-01T00:00:00,5Z") =
      (unixOfRFCTime ⟨2025, 1, 1, 0, 0, 0, 0⟩).toNat
  ∧ parseMonkTimestamp (gs "2025-01-02T5:04:05Z") =
      (unixOfRFCTime ⟨2025, 1, 2, 5, 4, 5, 0⟩).toNat
  ∧ parseMonkTimestamp (gs "2025-01-01T09:00:00+24:00") =
      (unixOfRFCTime ⟨2025, 1, 1, 9, 0, 0, 86400⟩).toNat :=
  ⟨(c9_timestamp_conversion (gs "2025-11-17T19:26:40Z") ⟨2025, 11, 17, 19, 26, 40, 0⟩).2.2
      (by decide) (by decide) (by decide),
   (c9_timestamp_conversion (gs "2025-01-01T00:00:00,5Z") ⟨2025, 1, 1, 0, 0, 0, 0⟩).2.2
      (by decide) (by decide) (by decide),
   (c9_timestamp_conversion (gs "2025-01-02T5:04:05Z") ⟨2025, 1, 2, 5, 4, 5, 0⟩).2.2
      (by decide) (by decide) (by decide),
   (c9_timestamp_conversion (gs "2025-01-01T09:00:00+24:00") ⟨2025, 1, 1, 9, 0, 0, 86400⟩).2.2
      (by decide) (by decide) (by decide)⟩

/-- C10 (amended): for every non-root parent, the key under which a
successful `Lookup` caches the fetched snapshot equals the resolved
absolute path the child's `Getattr` uses, so a `Getattr` on the child
within the TTL is a cache hit: it succeeds with the cached snapshot's
attributes and issues no remote call.  (For the root parent the two
keys differ — see the counterexample.) -/
theorem c10_lookup_getattr_key (pnp name : GoStr) (c : MetadataCache) (now now' : Nat)
    (resp : StatResponse) (sr : Except GoError StatResponse)
    (h : pnp ≠ []) (httl : now' - now ≤ c.ttl) :
    (getPath pnp ++ '/' :: name = getPath (childNodePath pnp name))
  ∧ MonkFS.Getattr ((MonkFS.Lookup c now pnp name (.ok resp)).cache) now'
      (childNodePath pnp name) sr =
    ⟨.ok (fillAttr resp), (MonkFS.Lookup c now pnp name (.ok resp)).cache, 0⟩ := by
  have hkey : getPath pnp ++ '/' :: name = getPath (childNodePath pnp name) := by
    simp [getPath, childNodePath, h]
  refine ⟨hkey, ?_⟩
  have hcache : (MonkFS.Lookup c now pnp name (.ok resp)).cache =
      c.Set now (getPath pnp ++ '/' :: name) resp := rfl
  have hget : (c.Set now (getPath pnp ++ '/' :: name) resp).Get now'
      (getPath (childNodePath pnp name)) = some resp := by
    rw [← hkey]
    simp [MetadataCache.Get, MetadataCache.Set, Nat.not_lt.mpr httl]
  rw [hcache]
  simp [MonkFS.Getattr, hget]

/-- C10 counterexample to the claim as stated: for the root parent,
`Lookup` of child "a" caches under `//a` (root `getPath` is `/`, then
`+ "/" + name`), while the child's `Getattr` resolves `/a`; the next
`Getattr` therefore misses the cache and issues a remote call. -/
theorem c10_counterexample :
    ((MonkFS.Lookup emptyCacheExample 0 [] (gs "a") (.ok statExample)).cache.Get 0
        (getPath (childNodePath [] (gs "a"))) = none)
  ∧ (MonkFS.Getattr (MonkFS.Lookup emptyCacheExample 0 [] (gs "a") (.ok statExample)).cache 0
        (childNodePath [] (gs "a")) (.ok statExample)).calls = 1
  ∧ getPath [] ++ '/' :: gs "a" ≠ getPath (childNodePath [] (gs "a")) :=
  ⟨rfl, rfl, by decide⟩

/-- C10 witness: the amended theorem at the non-root parent "a" with
child "b". -/
theorem c10_witness :
    (getPath (gs "a") ++ '/' :: gs "b" = getPath (childNodePath (gs "a") (gs "b")))
  ∧ MonkFS.Getattr ((MonkFS.Lookup emptyCacheExample 0 (gs "a") (gs "b")
        (.ok statExample)).cache) 10 (childNodePath (gs "a") (gs "b")) (.ok statExample) =
    ⟨.ok (fillAttr statExample),
      (MonkFS.Lookup emptyCacheExample 0 (gs "a") (gs "b") (.ok statExample)).cache, 0⟩ :=
  c10_lookup_getattr_key (gs "a") (gs "b") emptyCacheExample 0 10 statExample (.ok statExample)
    (by decide) (by decide)
